import Mathlib

/-!
Shallow embedding of the batch evaluation driver of
`src/fixed_streamlit_persistent.py` (the PSI analyzer dashboard).

The core is `run_psi_analysis(df, calculator)`: a nested loop over
encounters × `PSI_CODES` that calls `calculator.evaluate_psi(row, psi_code)`,
appends a result record on a normal 4-tuple return, appends an error record
(with `str(e)`) when the call raises or the returned value cannot be unpacked
into four components, and after every attempt pushes the progress fraction
`current_evaluation / total_evaluations`.

Modelling choices:
* a dataframe row is an association list from column name to a Python value
  (`PyVal`); `row.get(key, default)` is modelled by first-match lookup with a
  default (pandas returns the bound value even when it is NaN/None);
* `df.iterrows()` yields positional 0-based indices (the app always loads a
  fresh CSV/Excel file, so the index is the default RangeIndex);
* the engine is a function `Row → String → EngineOutcome`: it either raises
  (carrying the exception text `str(e)`) or returns a tuple of values; tuple
  unpacking `status, rationale, _, _ = ...` succeeds iff the tuple has
  exactly four components, otherwise Python raises a `ValueError` whose text
  depends only on the arity, which the `except` block also catches;
* the float division `current_evaluation / total_evaluations` is modelled by
  exact rational division.
-/

/-- A Python value stored in a dataframe cell (what the driver can observe:
it only inspects the `EncounterID` cell and passes rows through opaquely). -/
inductive PyVal where
  | vnone : PyVal
  | vnan : PyVal
  | vstr : String → PyVal
  | vint : Int → PyVal
deriving DecidableEq, Repr

/-- One dataframe row: an ordered mapping from column name to value. -/
def Row := List (String × PyVal)

instance : DecidableEq Row := by unfold Row; infer_instance

/-- `row.get(key, default)` on a pandas Series: the bound value when the key
is present (even when bound to NaN/None), otherwise the default. -/
def rowGet (row : Row) (key : String) (default : PyVal) : PyVal :=
  match List.lookup key row with
  | some v => v
  | none => default

/-- Outcome of one call `calculator.evaluate_psi(row, psi_code)`: the call
either raises an exception (carrying `str(e)`) or returns a tuple of values. -/
inductive EngineOutcome where
  | raises : String → EngineOutcome
  | returns : List PyVal → EngineOutcome

/-- Whether the engine call raised. -/
def EngineOutcome.isRaises : EngineOutcome → Bool
  | .raises _ => true
  | .returns _ => false

/-- The rules engine as seen by the driver. -/
def Engine := Row → String → EngineOutcome

/-- `str(e)` of the `ValueError` CPython raises when unpacking a tuple of
arity `n ≠ 4` into four targets. -/
def unpackErrMsg (n : Nat) : String :=
  if n < 4 then
    "not enough values to unpack (expected 4, got " ++ toString n ++ ")"
  else
    "too many values to unpack (expected 4)"

/-- `status, rationale, _, _ = calculator.evaluate_psi(row, psi_code)` inside
the `try` block: an exception from the call or from the unpacking lands in
the `except` branch with its text. -/
def evalPair (calculator : Engine) (row : Row) (psi_code : String) :
    Except String (PyVal × PyVal) :=
  match calculator row psi_code with
  | .raises msg => .error msg
  | .returns vals =>
    match vals with
    | [status, rationale, _, _] => .ok (status, rationale)
    | _ => .error (unpackErrMsg vals.length)

/-- `{"EncounterID": enc_id, "PSI": psi_code, "Status": status,
"Rationale": rationale}` appended to `results`. -/
structure ResultRecord where
  encounterID : PyVal
  psi : String
  status : PyVal
  rationale : PyVal
deriving DecidableEq, Repr

/-- `{"EncounterID": enc_id, "PSI": psi_code, "Error": str(e)}` appended to
`errors`. -/
structure ErrorRecord where
  encounterID : PyVal
  psi : String
  error : String
deriving DecidableEq, Repr

/-- `f"PSI_{i:02}"`: two-digit zero-padded formatting (for 2 ≤ i < 20). -/
def formatPSI (i : Nat) : String :=
  "PSI_" ++ (if i < 10 then "0" ++ toString i else toString i)

/-- `PSI_CODES = [f"PSI_{i:02}" for i in range(2, 20) if i != 16]`. -/
def PSI_CODES : List String :=
  (List.range' 2 18).filterMap fun i =>
    if i = 16 then none else some (formatPSI i)

/-- The mutable state accumulated by `run_psi_analysis`: the two record
lists, the attempt counter, and the sequence of progress fractions pushed to
the progress bar. -/
structure RunState where
  results : List ResultRecord
  errors : List ErrorRecord
  current : Nat
  progress : List ℚ
deriving DecidableEq

/-- One iteration of the inner `for psi_code in PSI_CODES` loop body:
try/except appending to `results` or `errors`, then
`current_evaluation += 1` and
`progress_bar.progress(current_evaluation / total_evaluations)`. -/
def stepPair (calculator : Engine) (total : Nat) (enc_id : PyVal) (row : Row)
    (st : RunState) (psi_code : String) : RunState :=
  let st1 :=
    match evalPair calculator row psi_code with
    | .ok (status, rationale) =>
        { st with results := st.results ++ [ResultRecord.mk enc_id psi_code status rationale] }
    | .error e =>
        { st with errors := st.errors ++ [ErrorRecord.mk enc_id psi_code e] }
  { st1 with
    current := st1.current + 1,
    progress := st1.progress ++ [((st1.current + 1 : ℕ) : ℚ) / (total : ℚ)] }

/-- One iteration of the outer `for idx, row in df.iterrows()` loop body:
compute `enc_id = row.get("EncounterID", f"Row{idx+1}")`, then run the inner
loop over all of `PSI_CODES`. -/
def processRow (calculator : Engine) (total : Nat) (idx : Nat) (row : Row)
    (st : RunState) : RunState :=
  let enc_id := rowGet row "EncounterID" (.vstr ("Row" ++ toString (idx + 1)))
  PSI_CODES.foldl (stepPair calculator total enc_id row) st

/-- The outer loop, carrying the positional index. -/
def runRows (calculator : Engine) (total : Nat) :
    Nat → List Row → RunState → RunState
  | _, [], st => st
  | idx, row :: rest, st =>
      runRows calculator total (idx + 1) rest (processRow calculator total idx row st)

/-- `run_psi_analysis(df, calculator)`: full cross-product evaluation with
`total_evaluations = len(df) * len(PSI_CODES)` and `current_evaluation = 0`. -/
def run_psi_analysis (df : List Row) (calculator : Engine) : RunState :=
  runRows calculator (df.length * PSI_CODES.length) 0 df ⟨[], [], 0, []⟩

/-! ### Specification-side characterizations -/

/-- The encounter identifier chosen for row `row` at 0-based position `idx`. -/
def encIdOf (idx : Nat) (row : Row) : PyVal :=
  rowGet row "EncounterID" (.vstr ("Row" ++ toString (idx + 1)))

/-- The result records a single row contributes, in code order: one for each
code whose evaluation returns a 4-tuple. -/
def rowResults (calculator : Engine) (idx : Nat) (row : Row) : List ResultRecord :=
  PSI_CODES.filterMap fun code =>
    match evalPair calculator row code with
    | .ok (status, rationale) => some ⟨encIdOf idx row, code, status, rationale⟩
    | .error _ => none

/-- The error records a single row contributes, in code order: one for each
code whose evaluation faults. -/
def rowErrors (calculator : Engine) (idx : Nat) (row : Row) : List ErrorRecord :=
  PSI_CODES.filterMap fun code =>
    match evalPair calculator row code with
    | .ok _ => none
    | .error e => some ⟨encIdOf idx row, code, e⟩

/-- All result records of a run, rows in input order starting at position
`idx`. -/
def allResults (calculator : Engine) : Nat → List Row → List ResultRecord
  | _, [] => []
  | idx, row :: rest => rowResults calculator idx row ++ allResults calculator (idx + 1) rest

/-- All error records of a run, rows in input order starting at position
`idx`. -/
def allErrors (calculator : Engine) : Nat → List Row → List ErrorRecord
  | _, [] => []
  | idx, row :: rest => rowErrors calculator idx row ++ allErrors calculator (idx + 1) rest

/-- The progress fractions a run of `total` attempts emits: `k / total` for
`k = 1, …, total`. -/
def progressList (total : Nat) : List ℚ :=
  (List.range total).map fun k => ((k + 1 : ℕ) : ℚ) / (total : ℚ)

/-- The progress fractions emitted by `n` consecutive attempts starting with
the counter at `c`: `(c+1)/total, …, (c+n)/total`. -/
def progressFrom (total : Nat) : Nat → Nat → List ℚ
  | _, 0 => []
  | c, n + 1 => ((c + 1 : ℕ) : ℚ) / (total : ℚ) :: progressFrom total (c + 1) n

/-- The result records contributed by one row for an arbitrary code list. -/
def codeResults (calculator : Engine) (enc_id : PyVal) (row : Row)
    (codes : List String) : List ResultRecord :=
  codes.filterMap fun code =>
    match evalPair calculator row code with
    | .ok (status, rationale) => some ⟨enc_id, code, status, rationale⟩
    | .error _ => none

/-- The error records contributed by one row for an arbitrary code list. -/
def codeErrors (calculator : Engine) (enc_id : PyVal) (row : Row)
    (codes : List String) : List ErrorRecord :=
  codes.filterMap fun code =>
    match evalPair calculator row code with
    | .ok _ => none
    | .error e => some ⟨enc_id, code, e⟩

lemma rowResults_eq_codeResults (calculator : Engine) (idx : ℕ) (row : Row) :
    rowResults calculator idx row = codeResults calculator (encIdOf idx row) row PSI_CODES := rfl

lemma rowErrors_eq_codeErrors (calculator : Engine) (idx : ℕ) (row : Row) :
    rowErrors calculator idx row = codeErrors calculator (encIdOf idx row) row PSI_CODES := rfl

/-- Unfolding the inner `for psi_code in codes` loop. -/
lemma foldl_stepPair (calculator : Engine) (total : ℕ) (enc_id : PyVal) (row : Row) :
    ∀ (codes : List String) (st : RunState),
      codes.foldl (stepPair calculator total enc_id row) st =
        RunState.mk (st.results ++ codeResults calculator enc_id row codes)
          (st.errors ++ codeErrors calculator enc_id row codes)
          (st.current + codes.length)
          (st.progress ++ progressFrom total st.current codes.length) := by
  intro codes
  induction codes with
  | nil =>
      intro st
      simp [codeResults, codeErrors, progressFrom]
  | cons code codes ih =>
      intro st
      rw [List.foldl_cons, ih]
      cases hE : evalPair calculator row code with
      | ok p =>
          obtain ⟨s, t⟩ := p
          simp only [stepPair, hE, codeResults, codeErrors,
            List.filterMap_cons, List.length_cons]
          simp only [RunState.mk.injEq]
          refine ⟨by simp, by simp, by omega, by simp [progressFrom]⟩
      | error e =>
          simp only [stepPair, hE, codeResults, codeErrors,
            List.filterMap_cons, List.length_cons]
          simp only [RunState.mk.injEq]
          refine ⟨by simp, by simp, by omega, by simp [progressFrom]⟩

/-- Progress fractions of `a + b` attempts split as `a` attempts then `b`
attempts with the counter advanced by `a`. -/
lemma progressFrom_add (total : ℕ) : ∀ (a b c : ℕ),
    progressFrom total c (a + b) = progressFrom total c a ++ progressFrom total (c + a) b := by
  intro a
  induction a with
  | zero => intro b c; simp [progressFrom]
  | succ a ih =>
      intro b c
      have h : a + 1 + b = (a + b) + 1 := by omega
      rw [h]
      simp only [progressFrom, ih b (c + 1), List.cons_append]
      have h2 : c + 1 + a = c + (a + 1) := by omega
      rw [h2]

/-- Unfolding the outer `for idx, row in df.iterrows()` loop. -/
lemma runRows_eq (calculator : Engine) (total : ℕ) :
    ∀ (rows : List Row) (idx : ℕ) (st : RunState),
      runRows calculator total idx rows st =
        RunState.mk (st.results ++ allResults calculator idx rows)
          (st.errors ++ allErrors calculator idx rows)
          (st.current + rows.length * PSI_CODES.length)
          (st.progress ++ progressFrom total st.current (rows.length * PSI_CODES.length)) := by
  intro rows
  induction rows with
  | nil =>
      intro idx st
      simp [runRows, allResults, allErrors, progressFrom]
  | cons row rest ih =>
      intro idx st
      show runRows calculator total (idx + 1) rest (processRow calculator total idx row st) = _
      rw [ih]
      unfold processRow
      rw [foldl_stepPair]
      simp only [RunState.mk.injEq, allResults, allErrors, List.length_cons]
      refine ⟨?_, ?_, ?_, ?_⟩
      · simp [rowResults_eq_codeResults, encIdOf, List.append_assoc]
      · simp [rowErrors_eq_codeErrors, encIdOf, List.append_assoc]
      · ring
      · rw [List.append_assoc]
        congr 1
        have h1 : (rest.length + 1) * PSI_CODES.length
            = PSI_CODES.length + rest.length * PSI_CODES.length := by ring
        rw [h1, progressFrom_add]

/-- Full characterization of `run_psi_analysis`: results and errors are the
row-by-row contributions in input order, the final counter is
`len(df) * len(PSI_CODES)`, and the progress fractions are
`1/total, …, total/total`. -/
lemma run_psi_analysis_eq (df : List Row) (calculator : Engine) :
    run_psi_analysis df calculator =
      RunState.mk (allResults calculator 0 df) (allErrors calculator 0 df)
        (df.length * PSI_CODES.length)
        (progressFrom (df.length * PSI_CODES.length) 0 (df.length * PSI_CODES.length)) := by
  unfold run_psi_analysis
  rw [runRows_eq]
  simp

/-- Per-row partition: each code contributes to exactly one of the two
record lists. -/
lemma codeResults_length_add_codeErrors_length (calculator : Engine) (enc_id : PyVal)
    (row : Row) : ∀ (codes : List String),
    (codeResults calculator enc_id row codes).length
      + (codeErrors calculator enc_id row codes).length = codes.length := by
  intro codes
  induction codes with
  | nil => simp [codeResults, codeErrors]
  | cons code codes ih =>
      cases hE : evalPair calculator row code with
      | ok p =>
          obtain ⟨s, t⟩ := p
          simp only [codeResults, codeErrors, List.filterMap_cons, hE] at ih ⊢
          simp only [List.length_cons]
          omega
      | error e =>
          simp only [codeResults, codeErrors, List.filterMap_cons, hE] at ih ⊢
          simp only [List.length_cons]
          omega

lemma rowResults_length_add_rowErrors_length (calculator : Engine) (idx : ℕ) (row : Row) :
    (rowResults calculator idx row).length + (rowErrors calculator idx row).length
      = PSI_CODES.length := by
  rw [rowResults_eq_codeResults, rowErrors_eq_codeErrors]
  exact codeResults_length_add_codeErrors_length calculator (encIdOf idx row) row PSI_CODES

/-- Whole-run partition: the two record lists together have one entry per
(encounter, code) pair. -/
lemma allResults_length_add_allErrors_length (calculator : Engine) :
    ∀ (rows : List Row) (idx : ℕ),
    (allResults calculator idx rows).length + (allErrors calculator idx rows).length
      = rows.length * PSI_CODES.length := by
  intro rows
  induction rows with
  | nil => intro idx; simp [allResults, allErrors]
  | cons row rest ih =>
      intro idx
      simp only [allResults, allErrors, List.length_append, List.length_cons]
      have h1 := rowResults_length_add_rowErrors_length calculator idx row
      have h2 := ih (idx + 1)
      have h3 : (rest.length + 1) * PSI_CODES.length
          = rest.length * PSI_CODES.length + PSI_CODES.length := by ring
      omega

/-- Shape of a member of `rowResults`: it comes from some code whose
evaluation returned normally, and carries that row's encounter id, the code,
and the engine's status and rationale verbatim. -/
lemma mem_rowResults (calculator : Engine) (idx : ℕ) (row : Row) (r : ResultRecord)
    (h : r ∈ rowResults calculator idx row) :
    ∃ code ∈ PSI_CODES, ∃ s t, evalPair calculator row code = .ok (s, t) ∧
      r = ResultRecord.mk (encIdOf idx row) code s t := by
  rw [rowResults] at h
  obtain ⟨code, hcode, heq⟩ := List.mem_filterMap.mp h
  refine ⟨code, hcode, ?_⟩
  cases hE : evalPair calculator row code with
  | ok p =>
      obtain ⟨s, t⟩ := p
      rw [hE] at heq
      exact ⟨s, t, rfl, (Option.some_inj.mp heq).symm⟩
  | error e =>
      rw [hE] at heq
      exact absurd heq (by simp)

/-- Shape of a member of `rowErrors`: it comes from some code whose
evaluation faulted, and carries that row's encounter id, the code, and the
fault's text. -/
lemma mem_rowErrors (calculator : Engine) (idx : ℕ) (row : Row) (r : ErrorRecord)
    (h : r ∈ rowErrors calculator idx row) :
    ∃ code ∈ PSI_CODES, ∃ e, evalPair calculator row code = .error e ∧
      r = ErrorRecord.mk (encIdOf idx row) code e := by
  rw [rowErrors] at h
  obtain ⟨code, hcode, heq⟩ := List.mem_filterMap.mp h
  refine ⟨code, hcode, ?_⟩
  cases hE : evalPair calculator row code with
  | ok p =>
      rw [hE] at heq
      exact absurd heq (by simp)
  | error e =>
      rw [hE] at heq
      exact ⟨e, rfl, (Option.some_inj.mp heq).symm⟩

/-- A member of `allErrors` belongs to the contribution of some row of the
input. -/
lemma mem_allErrors (calculator : Engine) :
    ∀ (rows : List Row) (idx : ℕ) (r : ErrorRecord),
    r ∈ allErrors calculator idx rows →
      ∃ i row, row ∈ rows ∧ r ∈ rowErrors calculator i row := by
  intro rows
  induction rows with
  | nil => intro idx r h; simp [allErrors] at h
  | cons row rest ih =>
      intro idx r h
      rw [allErrors, List.mem_append] at h
      cases h with
      | inl h => exact ⟨idx, row, List.mem_cons_self row rest, h⟩
      | inr h =>
          obtain ⟨i, row', hmem, hr⟩ := ih (idx + 1) r h
          exact ⟨i, row', List.mem_cons_of_mem row hmem, hr⟩

/-- The contribution of the row at position `i` appears as a contiguous
block of the run's output, at its place in input order. -/
lemma allResults_split (calculator : Engine) :
    ∀ (rows : List Row) (idx i : ℕ) (row : Row), rows[i]? = some row →
      ∃ pre post, allResults calculator idx rows
        = pre ++ rowResults calculator (idx + i) row ++ post := by
  intro rows
  induction rows with
  | nil => intro idx i row h; simp at h
  | cons first rest ih =>
      intro idx i row h
      cases i with
      | zero =>
          simp only [List.getElem?_cons_zero, Option.some_inj] at h
          subst h
          exact ⟨[], allResults calculator (idx + 1) rest, by simp [allResults]⟩
      | succ i =>
          simp only [List.getElem?_cons_succ] at h
          obtain ⟨pre, post, hsplit⟩ := ih (idx + 1) i row h
          refine ⟨rowResults calculator idx first ++ pre, post, ?_⟩
          have harith : idx + 1 + i = idx + (i + 1) := by omega
          rw [allResults, hsplit, harith]
          simp [List.append_assoc]

/-- Error-list version of `allResults_split`. -/
lemma allErrors_split (calculator : Engine) :
    ∀ (rows : List Row) (idx i : ℕ) (row : Row), rows[i]? = some row →
      ∃ pre post, allErrors calculator idx rows
        = pre ++ rowErrors calculator (idx + i) row ++ post := by
  intro rows
  induction rows with
  | nil => intro idx i row h; simp at h
  | cons first rest ih =>
      intro idx i row h
      cases i with
      | zero =>
          simp only [List.getElem?_cons_zero, Option.some_inj] at h
          subst h
          exact ⟨[], allErrors calculator (idx + 1) rest, by simp [allErrors]⟩
      | succ i =>
          simp only [List.getElem?_cons_succ] at h
          obtain ⟨pre, post, hsplit⟩ := ih (idx + 1) i row h
          refine ⟨rowErrors calculator idx first ++ pre, post, ?_⟩
          have harith : idx + 1 + i = idx + (i + 1) := by omega
          rw [allErrors, hsplit, harith]
          simp [List.append_assoc]

lemma progressFrom_length (total : ℕ) : ∀ (n c : ℕ), (progressFrom total c n).length = n := by
  intro n
  induction n with
  | zero => intro c; simp [progressFrom]
  | succ n ih => intro c; simp [progressFrom, ih]

/-- The fractions of `n` attempts starting at counter `c` are
`(c+1)/total, …, (c+n)/total`. -/
lemma progressFrom_eq_map (total : ℕ) : ∀ (n c : ℕ),
    progressFrom total c n
      = (List.range n).map fun k => ((c + k + 1 : ℕ) : ℚ) / (total : ℚ) := by
  intro n
  induction n with
  | zero => intro c; simp [progressFrom]
  | succ n ih =>
      intro c
      rw [List.range_succ_eq_map]
      simp only [progressFrom, ih (c + 1), List.map_cons, List.map_map]
      refine List.cons_eq_cons.mpr ⟨by norm_num, ?_⟩
      apply List.map_congr_left
      intro k hk
      simp only [Function.comp_apply, Nat.succ_eq_add_one]
      push_cast
      ring

lemma progressFrom_zero (total : ℕ) : progressFrom total 0 total = progressList total := by
  rw [progressFrom_eq_map, progressList]
  apply List.map_congr_left
  intro k _
  congr 2
  omega

/-- Two engines agreeing on a row (over the fixed codes) give that row the
same result records. -/
lemma rowResults_congr (e1 e2 : Engine) (idx : ℕ) (row : Row)
    (h : ∀ code ∈ PSI_CODES, e1 row code = e2 row code) :
    rowResults e1 idx row = rowResults e2 idx row := by
  apply List.filterMap_congr
  intro code hcode
  have : evalPair e1 row code = evalPair e2 row code := by
    unfold evalPair
    rw [h code hcode]
  rw [this]

/-- Two engines agreeing on a row (over the fixed codes) give that row the
same error records. -/
lemma rowErrors_congr (e1 e2 : Engine) (idx : ℕ) (row : Row)
    (h : ∀ code ∈ PSI_CODES, e1 row code = e2 row code) :
    rowErrors e1 idx row = rowErrors e2 idx row := by
  apply List.filterMap_congr
  intro code hcode
  have : evalPair e1 row code = evalPair e2 row code := by
    unfold evalPair
    rw [h code hcode]
  rw [this]

lemma allResults_congr (e1 e2 : Engine) :
    ∀ (rows : List Row) (idx : ℕ),
    (∀ row ∈ rows, ∀ code ∈ PSI_CODES, e1 row code = e2 row code) →
      allResults e1 idx rows = allResults e2 idx rows := by
  intro rows
  induction rows with
  | nil => intro idx _; rfl
  | cons row rest ih =>
      intro idx h
      rw [allResults, allResults,
        rowResults_congr e1 e2 idx row (h row (List.mem_cons_self row rest)),
        ih (idx + 1) fun r hr => h r (List.mem_cons_of_mem row hr)]

lemma allErrors_congr (e1 e2 : Engine) :
    ∀ (rows : List Row) (idx : ℕ),
    (∀ row ∈ rows, ∀ code ∈ PSI_CODES, e1 row code = e2 row code) →
      allErrors e1 idx rows = allErrors e2 idx rows := by
  intro rows
  induction rows with
  | nil => intro idx _; rfl
  | cons row rest ih =>
      intro idx h
      rw [allErrors, allErrors,
        rowErrors_congr e1 e2 idx row (h row (List.mem_cons_self row rest)),
        ih (idx + 1) fun r hr => h r (List.mem_cons_of_mem row hr)]

/-- A row none of whose evaluations return contributes no result record. -/
lemma rowResults_eq_nil (calculator : Engine) (idx : ℕ) (row : Row)
    (h : ∀ code ∈ PSI_CODES, (calculator row code).isRaises = true) :
    rowResults calculator idx row = [] := by
  rw [rowResults, List.filterMap_eq_nil_iff]
  intro code hcode
  cases hc : calculator row code with
  | raises m => simp [evalPair, hc]
  | returns vals =>
      have := h code hcode
      rw [hc] at this
      simp [EngineOutcome.isRaises] at this

lemma allResults_eq_nil (calculator : Engine) :
    ∀ (rows : List Row) (idx : ℕ),
    (∀ row ∈ rows, ∀ code ∈ PSI_CODES, (calculator row code).isRaises = true) →
      allResults calculator idx rows = [] := by
  intro rows
  induction rows with
  | nil => intro idx _; rfl
  | cons row rest ih =>
      intro idx h
      rw [allResults, rowResults_eq_nil calculator idx row
          (h row (List.mem_cons_self row rest)),
        ih (idx + 1) fun r hr => h r (List.mem_cons_of_mem row hr)]
      rfl

/-! ### Concrete fixtures for witnesses and counterexamples -/

/-- An engine that raises on every call with text `boom`. -/
def engRaiseBoom : Engine := fun _ _ => .raises "boom"

/-- An engine that raises on every call with an empty exception text
(Python: `raise ValueError()` gives `str(e) == ""`). -/
def engRaiseEmpty : Engine := fun _ _ => .raises ""

/-- An engine that always returns a well-formed 4-tuple. -/
def engOkTuple : Engine :=
  fun _ _ => .returns [.vstr "Inclusion", .vstr "flag", .vnone, .vnone]

/-- A second engine with the same responses as `engOkTuple`. -/
def engOkTupleB : Engine :=
  fun _ _ => .returns [.vstr "Inclusion", .vstr "flag", .vnone, .vnone]

/-- An engine that returns a 1-tuple, which cannot be unpacked into four. -/
def engShort : Engine := fun _ _ => .returns [.vstr "x"]

/-- A row with an `EncounterID` column. -/
def rowA : Row := [("EncounterID", PyVal.vstr "A1")]

/-- A row without an `EncounterID` column. -/
def rowNoId : Row := [("Other", PyVal.vint 5)]

/-- A row whose `EncounterID` column holds a missing value (NaN). -/
def rowNan : Row := [("EncounterID", PyVal.vnan)]

def dfA : List Row := [rowA]

def dfNoId : List Row := [rowNoId]

def dfNan : List Row := [rowNan]

/-! ### Claims -/

/-- C1: for every input dataframe and the fixed code list `PSI_CODES`, each
(encounter, code) pair produces exactly one record in exactly one of the two
outputs — the outputs are exactly the per-row contributions, each row
contributes one record per code split between the two lists, and the total
record count is `|encounters| * |PSI_CODES|`. -/
theorem run_psi_analysis_total_record_count (df : List Row) (calculator : Engine) :
    (run_psi_analysis df calculator).results = allResults calculator 0 df ∧
    (run_psi_analysis df calculator).errors = allErrors calculator 0 df ∧
    (∀ idx row, (rowResults calculator idx row).length
        + (rowErrors calculator idx row).length = PSI_CODES.length) ∧
    (run_psi_analysis df calculator).results.length
        + (run_psi_analysis df calculator).errors.length
      = df.length * PSI_CODES.length := by
  rw [run_psi_analysis_eq]
  exact ⟨rfl, rfl,
    fun idx row => rowResults_length_add_rowErrors_length calculator idx row,
    allResults_length_add_allErrors_length calculator df 0⟩

/-- C2: a faulting pair is recorded as an `ErrorRecord` carrying the row's
encounter id, the code, and the fault's text, and the run continues through
all remaining pairs; when every pair faults the run still completes, with no
results and `|df| * |PSI_CODES|` errors. -/
theorem run_psi_analysis_fault_isolation (df : List Row) (calculator : Engine) :
    (run_psi_analysis df calculator).errors = allErrors calculator 0 df ∧
    (∀ idx row code msg, code ∈ PSI_CODES → calculator row code = .raises msg →
      ErrorRecord.mk (encIdOf idx row) code msg ∈ rowErrors calculator idx row) ∧
    ((∀ row ∈ df, ∀ code ∈ PSI_CODES, (calculator row code).isRaises = true) →
      (run_psi_analysis df calculator).results = [] ∧
      (run_psi_analysis df calculator).errors.length
        = df.length * PSI_CODES.length) := by
  refine ⟨by rw [run_psi_analysis_eq], ?_, ?_⟩
  · intro idx row code msg hcode hr
    rw [rowErrors]
    apply List.mem_filterMap.mpr
    refine ⟨code, hcode, ?_⟩
    have hE : evalPair calculator row code = .error msg := by
      unfold evalPair
      rw [hr]
    rw [hE]
  · intro hall
    have hcount := allResults_length_add_allErrors_length calculator df 0
    have hnil := allResults_eq_nil calculator df 0 hall
    rw [hnil] at hcount
    constructor
    · rw [run_psi_analysis_eq]
      exact hnil
    · rw [run_psi_analysis_eq]
      simpa using hcount

/-- Witness for C2: one encounter, an engine raising `boom` everywhere. -/
theorem run_psi_analysis_fault_isolation_witness :
    (run_psi_analysis dfA engRaiseBoom).results = [] ∧
    (run_psi_analysis dfA engRaiseBoom).errors.length
      = dfA.length * PSI_CODES.length := by
  exact (run_psi_analysis_fault_isolation dfA engRaiseBoom).2.2
    (fun row _ code _ => rfl)

/-- C6: `PSI_CODES` is exactly the 17 identifiers PSI_02 … PSI_19 in
ascending numeric order, two-digit zero-padded, with PSI_16 excluded. -/
theorem PSI_CODES_enumeration :
    PSI_CODES = ["PSI_02", "PSI_03", "PSI_04", "PSI_05", "PSI_06", "PSI_07",
      "PSI_08", "PSI_09", "PSI_10", "PSI_11", "PSI_12", "PSI_13", "PSI_14",
      "PSI_15", "PSI_17", "PSI_18", "PSI_19"] ∧
    PSI_CODES.length = 17 ∧
    "PSI_16" ∉ PSI_CODES := by
  refine ⟨by decide, by decide, by decide⟩

/-- C8: on an empty encounters input the run returns empty results and empty
errors, and emits no progress signal at all — the loop body, and with it the
division by `total_evaluations = 0`, is never executed. -/
theorem run_psi_analysis_empty_input (calculator : Engine) :
    (run_psi_analysis [] calculator).results = [] ∧
    (run_psi_analysis [] calculator).errors = [] ∧
    (run_psi_analysis [] calculator).progress = [] :=
  ⟨rfl, rfl, rfl⟩

/-- C3: for every non-empty input the run emits exactly one progress signal
per attempt: the signals are `1/total, …, total/total`, there are exactly
`total = |df| * |PSI_CODES|` of them, the k-th (0-based) is `(k+1)/total`,
they are strictly increasing, all positive, and the last equals exactly 1. -/
theorem run_psi_analysis_progress_signals (df : List Row) (calculator : Engine)
    (h : df ≠ []) :
    (run_psi_analysis df calculator).progress
        = progressList (df.length * PSI_CODES.length) ∧
    (run_psi_analysis df calculator).progress.length
        = df.length * PSI_CODES.length ∧
    (∀ k, k < df.length * PSI_CODES.length →
      (run_psi_analysis df calculator).progress[k]?
        = some (((k + 1 : ℕ) : ℚ) / ((df.length * PSI_CODES.length : ℕ) : ℚ))) ∧
    List.Pairwise (· < ·) (run_psi_analysis df calculator).progress ∧
    (∀ q ∈ (run_psi_analysis df calculator).progress, 0 < q) ∧
    (run_psi_analysis df calculator).progress.getLast? = some 1 := by
  have hL : PSI_CODES.length = 17 := by decide
  have htot : 0 < df.length * PSI_CODES.length :=
    Nat.mul_pos (List.length_pos.mpr h) (by rw [hL]; norm_num)
  have hcast : (0 : ℚ) < ((df.length * PSI_CODES.length : ℕ) : ℚ) := by
    exact_mod_cast htot
  have hprog : (run_psi_analysis df calculator).progress
      = progressList (df.length * PSI_CODES.length) := by
    rw [run_psi_analysis_eq]
    exact progressFrom_zero (df.length * PSI_CODES.length)
  refine ⟨hprog, ?_, ?_, ?_, ?_, ?_⟩
  · rw [hprog, progressList, List.length_map, List.length_range]
  · intro k hk
    rw [hprog, progressList, List.getElem?_map, List.getElem?_range hk]
    rfl
  · rw [hprog, progressList]
    refine List.Pairwise.map _ ?_ (List.pairwise_lt_range _)
    intro a b hab
    have h1 : ((a + 1 : ℕ) : ℚ) < ((b + 1 : ℕ) : ℚ) := by
      exact_mod_cast Nat.succ_lt_succ hab
    exact (div_lt_div_iff_of_pos_right hcast).mpr h1
  · intro q hq
    rw [hprog, progressList] at hq
    obtain ⟨k, _, rfl⟩ := List.mem_map.mp hq
    have h1 : (0 : ℚ) < ((k + 1 : ℕ) : ℚ) := by exact_mod_cast Nat.succ_pos k
    exact div_pos h1 hcast
  · rw [hprog, List.getLast?_eq_getElem?, progressList, List.length_map,
      List.length_range, List.getElem?_map,
      List.getElem?_range (by omega : df.length * PSI_CODES.length - 1
        < df.length * PSI_CODES.length)]
    have heq : df.length * PSI_CODES.length - 1 + 1
        = df.length * PSI_CODES.length := by omega
    simp only [Option.map_some', heq]
    rw [div_self (ne_of_gt hcast)]

/-- Witness for C3: one encounter and an all-raising engine; the 17 signals
end exactly at 1. -/
theorem run_psi_analysis_progress_signals_witness :
    (run_psi_analysis dfA engRaiseBoom).progress.length
        = dfA.length * PSI_CODES.length ∧
    (run_psi_analysis dfA engRaiseBoom).progress.getLast? = some 1 := by
  have h := run_psi_analysis_progress_signals dfA engRaiseBoom (by decide)
  exact ⟨h.2.1, h.2.2.2.2.2⟩

/-- Counterexample to C4 as stated: an engine may raise an exception whose
text is empty (`str(ValueError()) == ""`); every call still raises, yet the
recorded failure descriptions are empty strings. -/
theorem run_psi_analysis_all_raise_empty_message_cex :
    (∀ row ∈ dfA, ∀ code ∈ PSI_CODES, (engRaiseEmpty row code).isRaises = true) ∧
    ¬ (∀ r ∈ (run_psi_analysis dfA engRaiseEmpty).errors, r.error ≠ "") := by
  constructor
  · decide
  · decide

/-- C4 (amended): if every evaluation call raises, results is empty and
errors has exactly `|df| * |PSI_CODES|` entries; each entry carries the
fault's description verbatim, so the descriptions are non-empty whenever
every fault's text is non-empty. -/
theorem run_psi_analysis_all_raise_outputs (df : List Row) (calculator : Engine)
    (h : ∀ row ∈ df, ∀ code ∈ PSI_CODES, (calculator row code).isRaises = true) :
    (run_psi_analysis df calculator).results = [] ∧
    (run_psi_analysis df calculator).errors.length
        = df.length * PSI_CODES.length ∧
    ((∀ row ∈ df, ∀ code msg, calculator row code = .raises msg → msg ≠ "") →
      ∀ r ∈ (run_psi_analysis df calculator).errors, r.error ≠ "") := by
  have hcount := allResults_length_add_allErrors_length calculator df 0
  have hnil := allResults_eq_nil calculator df 0 h
  rw [hnil] at hcount
  refine ⟨by rw [run_psi_analysis_eq]; exact hnil,
    by rw [run_psi_analysis_eq]; simpa using hcount, ?_⟩
  intro hmsg r hr
  rw [run_psi_analysis_eq] at hr
  obtain ⟨i, row, hrowmem, hrE⟩ := mem_allErrors calculator df 0 r hr
  obtain ⟨code, hcode, e, hEv, rfl⟩ := mem_rowErrors calculator i row r hrE
  cases hcR : calculator row code with
  | raises m =>
      have hE2 : evalPair calculator row code = .error m := by
        unfold evalPair
        rw [hcR]
      have heq := hE2.symm.trans hEv
      injection heq with hme
      subst hme
      exact hmsg row hrowmem code m hcR
  | returns vals =>
      have hT := h row hrowmem code hcode
      rw [hcR] at hT
      simp [EngineOutcome.isRaises] at hT

/-- Witness for C4 (amended): a single encounter with an engine raising
`boom` everywhere. -/
theorem run_psi_analysis_all_raise_outputs_witness :
    (run_psi_analysis dfA engRaiseBoom).results = [] ∧
    (run_psi_analysis dfA engRaiseBoom).errors.length
        = dfA.length * PSI_CODES.length ∧
    (∀ r ∈ (run_psi_analysis dfA engRaiseBoom).errors, r.error ≠ "") := by
  have h := run_psi_analysis_all_raise_outputs dfA engRaiseBoom
    (fun row _ code _ => rfl)
  refine ⟨h.1, h.2.1, h.2.2 ?_⟩
  intro row _ code msg hm
  simp only [engRaiseBoom, EngineOutcome.raises.injEq] at hm
  subst hm
  decide

/-- C5: a row at 0-based position `i` whose mapping has no `EncounterID` key
gets the synthesized positional identifier `Row{i+1}` (1-based) on every
result and error record it produces; its contribution appears as a
contiguous block of the run's output. -/
theorem run_psi_analysis_missing_encounter_id (df : List Row) (calculator : Engine)
    (i : ℕ) (row : Row) (hrow : df[i]? = some row)
    (hmiss : List.lookup "EncounterID" row = none) :
    (∃ pre post, (run_psi_analysis df calculator).results
        = pre ++ rowResults calculator i row ++ post) ∧
    (∃ pre post, (run_psi_analysis df calculator).errors
        = pre ++ rowErrors calculator i row ++ post) ∧
    (∀ r ∈ rowResults calculator i row,
        r.encounterID = PyVal.vstr ("Row" ++ toString (i + 1))) ∧
    (∀ r ∈ rowErrors calculator i row,
        r.encounterID = PyVal.vstr ("Row" ++ toString (i + 1))) := by
  have hid : encIdOf i row = PyVal.vstr ("Row" ++ toString (i + 1)) := by
    unfold encIdOf rowGet
    rw [hmiss]
  refine ⟨?_, ?_, ?_, ?_⟩
  · obtain ⟨pre, post, hs⟩ := allResults_split calculator df 0 i row hrow
    rw [Nat.zero_add] at hs
    rw [run_psi_analysis_eq]
    exact ⟨pre, post, hs⟩
  · obtain ⟨pre, post, hs⟩ := allErrors_split calculator df 0 i row hrow
    rw [Nat.zero_add] at hs
    rw [run_psi_analysis_eq]
    exact ⟨pre, post, hs⟩
  · intro r hr
    obtain ⟨code, hcode, s, t, hE, rfl⟩ := mem_rowResults calculator i row r hr
    exact hid
  · intro r hr
    obtain ⟨code, hcode, e, hE, rfl⟩ := mem_rowErrors calculator i row r hr
    exact hid

/-- Witness for C5: a one-row dataframe whose row has no `EncounterID`
column; the synthesized id is `Row1`. -/
theorem run_psi_analysis_missing_encounter_id_witness :
    (∃ pre post, (run_psi_analysis dfNoId engOkTuple).results
        = pre ++ rowResults engOkTuple 0 rowNoId ++ post) ∧
    (∀ r ∈ rowResults engOkTuple 0 rowNoId,
        r.encounterID = PyVal.vstr ("Row" ++ toString (0 + 1))) := by
  have h := run_psi_analysis_missing_encounter_id dfNoId engOkTuple 0 rowNoId
    rfl rfl
  exact ⟨h.1, h.2.2.1⟩

/-- C7: the driver is deterministic — two engines responding identically on
every processed pair give identical run outputs, and the output order is the
row-by-row (outer) and code-by-code (inner) order with the engine's status
and rationale passed through verbatim. -/
theorem run_psi_analysis_deterministic (df : List Row) (e1 e2 : Engine)
    (h : ∀ row ∈ df, ∀ code ∈ PSI_CODES, e1 row code = e2 row code) :
    run_psi_analysis df e1 = run_psi_analysis df e2 ∧
    (run_psi_analysis df e1).results = allResults e1 0 df ∧
    (run_psi_analysis df e1).errors = allErrors e1 0 df := by
  refine ⟨?_, by rw [run_psi_analysis_eq], by rw [run_psi_analysis_eq]⟩
  rw [run_psi_analysis_eq, run_psi_analysis_eq,
    allResults_congr e1 e2 df 0 h, allErrors_congr e1 e2 df 0 h]

/-- Witness for C7: two syntactically distinct engines with identical
responses give identical runs. -/
theorem run_psi_analysis_deterministic_witness :
    run_psi_analysis dfA engOkTuple = run_psi_analysis dfA engOkTupleB :=
  (run_psi_analysis_deterministic dfA engOkTuple engOkTupleB
    (fun _ _ _ _ => rfl)).1

/-- C9: a pair whose engine call returns normally but whose value cannot be
unpacked into exactly four components is recorded as an `ErrorRecord`
carrying the unpacking failure's message, not as a `ResultRecord`, and the
run continues with the remaining pairs. -/
theorem run_psi_analysis_malformed_return (df : List Row) (calculator : Engine)
    (i : ℕ) (row : Row) (code : String) (vals : List PyVal)
    (hrow : df[i]? = some row) (hcode : code ∈ PSI_CODES)
    (hret : calculator row code = .returns vals) (hlen : vals.length ≠ 4) :
    (∃ pre post, (run_psi_analysis df calculator).errors
        = pre ++ rowErrors calculator i row ++ post) ∧
    ErrorRecord.mk (encIdOf i row) code (unpackErrMsg vals.length)
        ∈ rowErrors calculator i row ∧
    (∀ r ∈ rowResults calculator i row, r.psi ≠ code) := by
  have hE : evalPair calculator row code = .error (unpackErrMsg vals.length) := by
    unfold evalPair
    rw [hret]
    rcases vals with _ | ⟨a, _ | ⟨b, _ | ⟨c, _ | ⟨d, _ | ⟨e, rest⟩⟩⟩⟩⟩
    · rfl
    · rfl
    · rfl
    · rfl
    · simp at hlen
    · rfl
  refine ⟨?_, ?_, ?_⟩
  · obtain ⟨pre, post, hs⟩ := allErrors_split calculator df 0 i row hrow
    rw [Nat.zero_add] at hs
    rw [run_psi_analysis_eq]
    exact ⟨pre, post, hs⟩
  · rw [rowErrors]
    apply List.mem_filterMap.mpr
    exact ⟨code, hcode, by rw [hE]⟩
  · intro r hr
    obtain ⟨c2, hc2, s, t, hE2, rfl⟩ := mem_rowResults calculator i row r hr
    intro hcontra
    have hc2eq : c2 = code := hcontra
    rw [hc2eq, hE] at hE2
    simp at hE2

/-- Witness for C9: an engine returning 1-tuples; the pair is recorded as an
unpacking error. -/
theorem run_psi_analysis_malformed_return_witness :
    (∃ pre post, (run_psi_analysis dfA engShort).errors
        = pre ++ rowErrors engShort 0 rowA ++ post) ∧
    ErrorRecord.mk (encIdOf 0 rowA) "PSI_02" (unpackErrMsg 1)
        ∈ rowErrors engShort 0 rowA := by
  have h := run_psi_analysis_malformed_return dfA engShort 0 rowA
    "PSI_02" [PyVal.vstr "x"] rfl (by decide) rfl (by decide)
  exact ⟨h.1, h.2.1⟩

/-- C10: when the `EncounterID` key is present in a row's mapping — whatever
value it is bound to, including a missing-data value — that bound value is
used verbatim as the `EncounterID` of every record the row produces. -/
theorem run_psi_analysis_present_encounter_id (df : List Row) (calculator : Engine)
    (i : ℕ) (row : Row) (v : PyVal) (hrow : df[i]? = some row)
    (hpresent : List.lookup "EncounterID" row = some v) :
    (∃ pre post, (run_psi_analysis df calculator).results
        = pre ++ rowResults calculator i row ++ post) ∧
    (∃ pre post, (run_psi_analysis df calculator).errors
        = pre ++ rowErrors calculator i row ++ post) ∧
    (∀ r ∈ rowResults calculator i row, r.encounterID = v) ∧
    (∀ r ∈ rowErrors calculator i row, r.encounterID = v) := by
  have hid : encIdOf i row = v := by
    unfold encIdOf rowGet
    rw [hpresent]
  refine ⟨?_, ?_, ?_, ?_⟩
  · obtain ⟨pre, post, hs⟩ := allResults_split calculator df 0 i row hrow
    rw [Nat.zero_add] at hs
    rw [run_psi_analysis_eq]
    exact ⟨pre, post, hs⟩
  · obtain ⟨pre, post, hs⟩ := allErrors_split calculator df 0 i row hrow
    rw [Nat.zero_add] at hs
    rw [run_psi_analysis_eq]
    exact ⟨pre, post, hs⟩
  · intro r hr
    obtain ⟨code, hcode, s, t, hE, rfl⟩ := mem_rowResults calculator i row r hr
    exact hid
  · intro r hr
    obtain ⟨code, hcode, e, hE, rfl⟩ := mem_rowErrors calculator i row r hr
    exact hid

/-- Witness for C10: a row whose `EncounterID` is bound to NaN; the NaN
value itself is used on every record. -/
theorem run_psi_analysis_present_encounter_id_witness :
    (∃ pre post, (run_psi_analysis dfNan engOkTuple).results
        = pre ++ rowResults engOkTuple 0 rowNan ++ post) ∧
    (∀ r ∈ rowResults engOkTuple 0 rowNan, r.encounterID = PyVal.vnan) := by
  have h := run_psi_analysis_present_encounter_id dfNan engOkTuple 0 rowNan
    PyVal.vnan rfl rfl
  exact ⟨h.1, h.2.2.1⟩
